import Mathlib

/-!
Verification of the go-as orchestrator core.

This file gives a shallow embedding, in Lean 4, of the parts of the go-as
module that the verified properties talk about:

* the line-extraction and event-stream parsing of `StreamChatCompletion`
  (LLM client);
* the result synthesizer `Synthesize`;
* the finalizer `Reconnect`;
* the orchestrator `ExecuteTask` and `ManageMCP`;
* the synchronous LLM call `CallChatCompletionWithToolChoice`.

Byte buffers are modelled as `List Char` (the Go code only ever inspects
single ASCII bytes: the newline byte, the `data:` prefix, and whitespace
trimming), external effects (HTTP transport, JSON (un)marshalling of opaque
Go values, the agent loop, which lives outside this module's orchestrator
file) are modelled as explicit parameters or `Except` values recording the
outcome of the effect, and a Go `(T, error)` return is `Except String T`.
Channels are modelled by the list of values sent on them before the channel
is closed.
-/

namespace GoAs

/-! ## Stream parsing (`StreamChatCompletion`, `extractLine`) -/

/-- Embedding of `extractLine` from the LLM client: find the first newline
byte in the buffer; if there is none report end-of-data (`none`, modelling
the `io.EOF` return, with the buffer untouched); otherwise split off the
prefix up to and including that newline and leave the rest in the buffer. -/
def extractLine (buffer : List Char) : Option (List Char × List Char) :=
  match buffer.findIdx? (fun c => c = '\n') with
  | none => none
  | some idx => some (buffer.take (idx + 1), buffer.drop (idx + 1))

/-- C10: for every byte buffer, `extractLine` reports end-of-data exactly when
the buffer contains no newline byte (leaving the buffer unchanged, which in
this functional embedding is by construction); otherwise it returns the
prefix of the buffer up to and including the first newline byte, and the
returned line concatenated with the updated buffer is the original buffer. -/
theorem extractLine_first_newline (buffer : List Char) :
    match extractLine buffer with
    | none => '\n' ∉ buffer
    | some (line, rest) =>
        line ++ rest = buffer ∧ line ≠ [] ∧ line.getLast? = some '\n' ∧
          '\n' ∉ line.dropLast := by
  unfold extractLine
  cases hfi : buffer.findIdx? (fun c => c = '\n') with
  | none =>
    simp only []
    intro hmem
    have hall := List.findIdx?_eq_none_iff.mp hfi _ hmem
    simp at hall
  | some idx =>
    simp only []
    obtain ⟨hlt, hp, hmin⟩ := List.findIdx?_eq_some_iff_getElem.mp hfi
    have hnl : buffer[idx] = '\n' := by simpa using hp
    refine ⟨List.take_append_drop _ _, ?_, ?_, ?_⟩
    · simp only [ne_eq, List.take_eq_nil_iff, not_or]
      exact ⟨by simp, by rintro rfl; simp at hlt⟩
    · rw [List.getLast?_take]
      simp [List.getElem?_eq_getElem hlt, hnl, Option.or]
    · have hlen : (buffer.take (idx + 1)).length = idx + 1 := by
        simp [List.length_take, Nat.min_eq_left hlt]
      rw [List.dropLast_eq_take, hlen, List.take_take]
      simp only [Nat.add_sub_cancel, Nat.min_self]
      rw [Nat.min_comm, Nat.min_eq_right (Nat.le_succ idx)]
      intro hmem
      obtain ⟨j, hj, hje⟩ := List.mem_take_iff_getElem.mp hmem
      have hji : j < idx := lt_of_lt_of_le hj (Nat.min_le_left _ _)
      exact hmin j hji (by simp [hje])

/-- Whitespace test matching Go's `unicode.IsSpace` on the Latin-1 range,
used by `strings.TrimSpace` in the streaming parser. -/
def isGoSpace (c : Char) : Bool :=
  c = ' ' || c = '\t' || c = '\n' || c = Char.ofNat 11 || c = Char.ofNat 12 ||
    c = '\r' || c = Char.ofNat 133 || c = Char.ofNat 160

/-- Embedding of `strings.TrimSpace`: drop leading and trailing whitespace. -/
def trimSpace (s : List Char) : List Char :=
  ((s.dropWhile isGoSpace).reverse.dropWhile isGoSpace).reverse

/-- Embedding of the per-line body of the read loop in `StreamChatCompletion`.
`parse` models `json.Unmarshal` into a `ChatCompletionStreamChunk` followed by
reading each choice's `Delta.Content`: it returns `none` on a JSON error
(which the Go code logs and skips) and otherwise the list of the choices'
content strings. The result is `none` when the line is the `data: [DONE]`
sentinel (the Go code returns from the whole stream), and otherwise `some`
of the content fragments the line contributes: for a `data:` line the
non-empty contents of the parsed chunk, for any other line nothing. -/
def processLine (parse : List Char → Option (List String)) (line : List Char) :
    Option (List String) :=
  let l := trimSpace line
  if l = ("data: [DONE]".toList) then none
  else if l.take 5 = ("data:".toList) then
    let jsonStr := trimSpace (l.drop 5)
    match parse jsonStr with
    | none => some []
    | some cs => some (cs.filter (fun c => c ≠ ""))
  else some []

/-- The rest left by a successful `extractLine` is strictly shorter. -/
theorem extractLine_rest_length {b l r : List Char}
    (h : extractLine b = some (l, r)) : r.length < b.length := by
  unfold extractLine at h
  cases hfi : b.findIdx? (fun c => c = '\n') with
  | none => rw [hfi] at h; exact absurd h (by simp)
  | some idx =>
    rw [hfi] at h
    obtain ⟨hlt, -, -⟩ := List.findIdx?_eq_some_iff_getElem.mp hfi
    have hr : r = b.drop (idx + 1) := by
      simpa using (congrArg (fun p => (Option.map Prod.snd p).getD []) h).symm
    rw [hr, List.length_drop]
    exact Nat.sub_lt (Nat.lt_of_le_of_lt (Nat.zero_le idx) hlt) (Nat.succ_pos idx)

/-- Embedding of the inner `for` loop of `StreamChatCompletion`: repeatedly
extract complete lines from the buffer and process each one, collecting the
emitted content fragments, until either no complete line is left (`false`:
keep reading) or the `[DONE]` sentinel is hit (`true`: the call returns
`nil`). Returns (emitted fragments, remaining buffer, finished?). -/
def drainBuffer (parse : List Char → Option (List String)) (buffer : List Char) :
    List String × List Char × Bool :=
  match h : extractLine buffer with
  | none => ([], buffer, false)
  | some (line, rest) =>
    match processLine parse line with
    | none => ([], rest, true)
    | some frags =>
      let r := drainBuffer parse rest
      (frags ++ r.1, r.2.1, r.2.2)
termination_by buffer.length
decreasing_by exact extractLine_rest_length h

/-- Embedding of the outer read loop of `StreamChatCompletion`: the byte
stream arrives as a list of read chunks (`reader.Read` results); each chunk
is appended to the buffer which is then drained; on the `[DONE]` sentinel the
call returns immediately (remaining chunks are never read), and at end of
stream (`io.EOF`) it returns with any incomplete trailing line discarded.
Returns (fragments sent on `chunkChan` in order, stopped-on-DONE?). -/
def runChunks (parse : List Char → Option (List String)) :
    List (List Char) → List Char → List String × Bool
  | [], _buffer => ([], false)
  | c :: cs, buffer =>
    let r := drainBuffer parse (buffer ++ c)
    if r.2.2 then (r.1, true)
    else
      let r2 := runChunks parse cs r.2.1
      (r.1 ++ r2.1, r2.2)

/-- Embedding of `StreamChatCompletion` on a successfully opened response
body delivered as the given chunks, starting from the empty buffer. -/
def StreamChatCompletion (parse : List Char → Option (List String))
    (chunks : List (List Char)) : List String × Bool :=
  runChunks parse chunks []

/-- A line found by `extractLine` is stable under appending further bytes:
only the new tail of the buffer changes. -/
theorem extractLine_append {b l r : List Char} (c : List Char)
    (h : extractLine b = some (l, r)) :
    extractLine (b ++ c) = some (l, r ++ c) := by
  unfold extractLine at h ⊢
  cases hfi : b.findIdx? (fun x => x = '\n') with
  | none => rw [hfi] at h; exact absurd h (by simp)
  | some idx =>
    rw [hfi] at h
    simp only [Option.some.injEq, Prod.mk.injEq] at h
    obtain ⟨rfl, rfl⟩ := h
    obtain ⟨hlt, -, -⟩ := List.findIdx?_eq_some_iff_getElem.mp hfi
    rw [List.findIdx?_append, hfi]
    show some ((b ++ c).take (idx + 1), (b ++ c).drop (idx + 1)) =
      some (b.take (idx + 1), b.drop (idx + 1) ++ c)
    have h0 : idx + 1 - b.length = 0 := Nat.sub_eq_zero_of_le hlt
    rw [List.take_append_eq_append_take, List.drop_append_eq_append_drop, h0]
    simp

/-- Unfolding of `drainBuffer` when the buffer holds no complete line. -/
theorem drainBuffer_eof (parse : List Char → Option (List String)) {b : List Char}
    (h : extractLine b = none) : drainBuffer parse b = ([], b, false) := by
  rw [drainBuffer]
  split
  · rfl
  · simp_all

/-- Unfolding of `drainBuffer` when the first line is the `[DONE]` sentinel. -/
theorem drainBuffer_done (parse : List Char → Option (List String))
    {b line rest : List Char}
    (h : extractLine b = some (line, rest)) (hp : processLine parse line = none) :
    drainBuffer parse b = ([], rest, true) := by
  rw [drainBuffer]
  split
  · simp_all
  · rename_i l2 r2 heq
    rw [h] at heq
    simp only [Option.some.injEq, Prod.mk.injEq] at heq
    obtain ⟨rfl, rfl⟩ := heq
    simp [hp]

/-- Unfolding of `drainBuffer` on an ordinary complete line. -/
theorem drainBuffer_step (parse : List Char → Option (List String))
    {b line rest : List Char} {frags : List String}
    (h : extractLine b = some (line, rest)) (hp : processLine parse line = some frags) :
    drainBuffer parse b =
      (frags ++ (drainBuffer parse rest).1, (drainBuffer parse rest).2.1,
        (drainBuffer parse rest).2.2) := by
  rw [drainBuffer]
  split
  · simp_all
  · rename_i l2 r2 heq
    rw [h] at heq
    simp only [Option.some.injEq, Prod.mk.injEq] at heq
    obtain ⟨rfl, rfl⟩ := heq
    simp [hp]

/-- Draining a buffer extended by `c` first processes exactly the lines of the
original buffer (stopping there if the sentinel shows up among them), and then
continues into the leftovers followed by `c`. -/
theorem drainBuffer_append (parse : List Char → Option (List String))
    (b c : List Char) :
    drainBuffer parse (b ++ c) =
      (if (drainBuffer parse b).2.2 = true
        then ((drainBuffer parse b).1, (drainBuffer parse b).2.1 ++ c, true)
        else ((drainBuffer parse b).1 ++
                (drainBuffer parse ((drainBuffer parse b).2.1 ++ c)).1,
              (drainBuffer parse ((drainBuffer parse b).2.1 ++ c)).2)) := by
  induction b using drainBuffer.induct parse with
  | case1 x hx =>
    rw [drainBuffer_eof parse hx]
    simp
  | case2 x line rest hx hp =>
    rw [drainBuffer_done parse hx hp,
      drainBuffer_done parse (extractLine_append c hx) hp]
    simp
  | case3 x line rest hx frags hp ih =>
    rw [drainBuffer_step parse hx hp,
      drainBuffer_step parse (extractLine_append c hx) hp, ih]
    by_cases hd : (drainBuffer parse rest).2.2 = true
    · simp [hd]
    · simp [hd, List.append_assoc]

/-- When draining stops for lack of a complete line, the leftover buffer
indeed holds no complete line. -/
theorem drainBuffer_rest (parse : List Char → Option (List String))
    (b : List Char) :
    (drainBuffer parse b).2.2 = false → extractLine (drainBuffer parse b).2.1 = none := by
  induction b using drainBuffer.induct parse with
  | case1 x hx =>
    intro _
    rw [drainBuffer_eof parse hx]
    exact hx
  | case2 x line rest hx hp =>
    intro h
    rw [drainBuffer_done parse hx hp] at h
    simp at h
  | case3 x line rest hx frags hp ih =>
    intro h
    rw [drainBuffer_step parse hx hp] at h ⊢
    exact ih h

/-- Chunk-by-chunk processing agrees with one drain over the concatenation of
the pending buffer and all remaining chunks, whenever the pending buffer holds
no complete line. -/
theorem runChunks_join (parse : List Char → Option (List String))
    (cs : List (List Char)) :
    ∀ buf : List Char, extractLine buf = none →
      runChunks parse cs buf =
        ((drainBuffer parse (buf ++ cs.flatten)).1,
          (drainBuffer parse (buf ++ cs.flatten)).2.2) := by
  induction cs with
  | nil =>
    intro buf h
    show ([], false) = _
    rw [List.flatten_nil, List.append_nil, drainBuffer_eof parse h]
  | cons c cs ih =>
    intro buf h
    simp only [runChunks, List.flatten_cons]
    have hassoc : buf ++ (c ++ cs.flatten) = (buf ++ c) ++ cs.flatten := by
      rw [List.append_assoc]
    rw [hassoc, drainBuffer_append parse (buf ++ c) cs.flatten]
    by_cases hd : (drainBuffer parse (buf ++ c)).2.2 = true
    · simp [hd]
    · simp only [hd, if_false, Bool.false_eq_true]
      rw [ih _ (drainBuffer_rest parse (buf ++ c) (by simpa using hd))]

/-- C2: for every byte stream and every way of splitting it into read chunks,
`StreamChatCompletion` emits the same ordered sequence of non-empty content
fragments on the chunk channel as for a single unfragmented read of the same
bytes (and stops in the same way), and the per-line processing stops the
stream (the `nil` return) exactly on a line that trims to `data: [DONE]`,
regardless of how the bytes were fragmented. -/
theorem streamChatCompletion_fragmentation_invariant
    (parse : List Char → Option (List String)) (chunks : List (List Char)) :
    StreamChatCompletion parse chunks = StreamChatCompletion parse [chunks.flatten] ∧
      ∀ line : List Char,
        (processLine parse line = none ↔ trimSpace line = ("data: [DONE]".toList)) := by
  constructor
  · unfold StreamChatCompletion
    rw [runChunks_join parse chunks [] rfl, runChunks_join parse [chunks.flatten] [] rfl]
    simp
  · intro line
    unfold processLine
    by_cases hd : trimSpace line = ("data: [DONE]".toList)
    · simp [hd]
    · simp only [hd, if_false]
      constructor
      · intro hcontra
        split at hcontra
        · cases hps : parse (trimSpace ((trimSpace line).drop 5)) <;>
            simp [hps] at hcontra
        · exact absurd hcontra (by simp)
      · intro hc
        exact hc.elim

/-! ## Tool results and the synthesizer (`synthesizer.go`) -/

/-- A content block of an MCP `CallToolResult`: either plain text
(`mcpcore.TextContent`) or any other, structured, content value. The
synthesizer consumes a structured block only through `json.Marshal`, so the
block carries the outcome of marshalling it (`Except.error` when
`json.Marshal` would fail on it). -/
inductive ContentBlock where
  | textContent (text : String)
  | structured (marshal : Except String String)

/-- Embedding of `mcpcore.CallToolResult` as consumed by the synthesizer. -/
structure CallToolResult where
  isError : Bool
  content : List ContentBlock

/-- Embedding of the loop over the content blocks on the non-error path of
`Synthesize`: a `strings.Builder` accumulator, appending text blocks verbatim
and marshalled JSON for any other block, returning early on a marshal
error. -/
def synthesizeContent : List ContentBlock → String → Except String String
  | [], acc => Except.ok acc
  | ContentBlock.textContent t :: rest, acc => synthesizeContent rest (acc ++ t)
  | ContentBlock.structured m :: rest, acc =>
    match m with
    | Except.error e => Except.error ("failed to marshal content to JSON: " ++ e)
    | Except.ok j => synthesizeContent rest (acc ++ j)

/-- Embedding of `Synthesizer.Synthesize`: on an error result, a
human-readable sentence built from the first content block when it is plain
text, else a generic sentence; otherwise the in-order concatenation of all
blocks. -/
def Synthesize (result : CallToolResult) : Except String String :=
  if result.isError then
    match result.content with
    | ContentBlock.textContent t :: _ => Except.ok ("Tool returned an error: " ++ t)
    | _ => Except.ok ("Tool returned an unspecified error.")
  else
    synthesizeContent result.content ""

/-- Rendering of one content block following the words of the spec (§4.4):
a plain-text block is its text verbatim, a structured block its canonical
JSON serialization (failing when serialization fails). -/
def renderBlockSpec : ContentBlock → Except String String
  | ContentBlock.textContent t => Except.ok t
  | ContentBlock.structured m =>
    match m with
    | Except.error e => Except.error ("failed to marshal content to JSON: " ++ e)
    | Except.ok j => Except.ok j

/-- Concatenation of all blocks' renderings in their original order,
following the words of the spec (§4.4): no truncation, no reordering,
failing exactly when some block's rendering fails. -/
def renderBlocksSpec : List ContentBlock → Except String String
  | [] => Except.ok ""
  | b :: rest =>
    match renderBlockSpec b with
    | Except.error e => Except.error e
    | Except.ok s =>
      match renderBlocksSpec rest with
      | Except.error e => Except.error e
      | Except.ok t => Except.ok (s ++ t)

/-- The builder-accumulator loop is the spec-side rendering with the
accumulator prefixed. -/
theorem synthesizeContent_eq_renderBlocksSpec (bs : List ContentBlock) :
    ∀ acc : String,
      synthesizeContent bs acc = (renderBlocksSpec bs).map (fun s => acc ++ s) := by
  induction bs with
  | nil => intro acc; simp [synthesizeContent, renderBlocksSpec, Except.map]
  | cons b rest ih =>
    intro acc
    cases b with
    | textContent t =>
      rw [synthesizeContent, ih]
      cases hr : renderBlocksSpec rest with
      | error e => simp [renderBlocksSpec, renderBlockSpec, hr, Except.map]
      | ok s =>
        simp [renderBlocksSpec, renderBlockSpec, hr, Except.map, String.append_assoc]
    | structured m =>
      cases m with
      | error e => simp [synthesizeContent, renderBlocksSpec, renderBlockSpec, Except.map]
      | ok j =>
        rw [synthesizeContent, ih]
        cases hr : renderBlocksSpec rest with
        | error e => simp [renderBlocksSpec, renderBlockSpec, hr, Except.map]
        | ok s =>
          simp [renderBlocksSpec, renderBlockSpec, hr, Except.map, String.append_assoc]

/-- A failing rendering pinpoints a structured block whose serialization
failed. -/
theorem renderBlocksSpec_error (bs : List ContentBlock) :
    ∀ e, renderBlocksSpec bs = Except.error e →
      ∃ m, ContentBlock.structured (Except.error m) ∈ bs := by
  induction bs with
  | nil => intro e h; exact absurd h (by simp [renderBlocksSpec])
  | cons b rest ih =>
    intro e h
    cases b with
    | textContent t =>
      rw [renderBlocksSpec, renderBlockSpec] at h
      cases hr : renderBlocksSpec rest with
      | error e2 =>
        obtain ⟨m, hm⟩ := ih e2 hr
        exact ⟨m, List.mem_cons_of_mem _ hm⟩
      | ok s => rw [hr] at h; exact absurd h (by simp)
    | structured m =>
      cases m with
      | error e2 => exact ⟨e2, List.mem_cons_self _ _⟩
      | ok j =>
        rw [renderBlocksSpec, renderBlockSpec] at h
        cases hr : renderBlocksSpec rest with
        | error e2 =>
          obtain ⟨m2, hm⟩ := ih e2 hr
          exact ⟨m2, List.mem_cons_of_mem _ hm⟩
        | ok s => rw [hr] at h; exact absurd h (by simp)

/-- C5: on every error result, `Synthesize` returns (without failing) the
sentence built from the first content block when that block is plain text,
and the generic unspecified-error sentence otherwise. -/
theorem synthesize_error_policy (result : CallToolResult)
    (h : result.isError = true) :
    (∀ t rest, result.content = ContentBlock.textContent t :: rest →
        Synthesize result = Except.ok ("Tool returned an error: " ++ t)) ∧
      ((∀ t rest, result.content ≠ ContentBlock.textContent t :: rest) →
        Synthesize result = Except.ok ("Tool returned an unspecified error.")) ∧
      ∃ s, Synthesize result = Except.ok s := by
  refine ⟨?_, ?_, ?_⟩
  · intro t rest hc
    simp [Synthesize, h, hc]
  · intro hne
    rw [Synthesize, if_pos h]
    match hc : result.content with
    | [] => rfl
    | ContentBlock.textContent t :: rest => exact absurd hc (hne t rest)
    | ContentBlock.structured m :: rest => rfl
  · rw [Synthesize, if_pos h]
    match result.content with
    | [] => exact ⟨_, rfl⟩
    | ContentBlock.textContent t :: rest => exact ⟨_, rfl⟩
    | ContentBlock.structured m :: rest => exact ⟨_, rfl⟩

/-- Witness for C5 at the spec's example `{isError:true, content:[{text:"boom"}]}`. -/
theorem synthesize_error_policy_witness :
    Synthesize ⟨true, [ContentBlock.textContent ("boom")]⟩ =
      Except.ok ("Tool returned an error: " ++ "boom") :=
  (synthesize_error_policy ⟨true, [ContentBlock.textContent ("boom")]⟩ rfl).1
    ("boom") [] rfl

/-- C6: on every non-error result, `Synthesize` returns the concatenation of
all content blocks in their original order — text blocks verbatim, any other
block as its JSON serialization — as captured by the spec-side rendering
`renderBlocksSpec`, and it fails only when serializing some structured block
fails. -/
theorem synthesize_concatenates_in_order (result : CallToolResult)
    (h : result.isError = false) :
    Synthesize result = renderBlocksSpec result.content ∧
      ∀ e, Synthesize result = Except.error e →
        ∃ m, ContentBlock.structured (Except.error m) ∈ result.content := by
  have heq : Synthesize result = renderBlocksSpec result.content := by
    rw [Synthesize, if_neg (by simp [h]), synthesizeContent_eq_renderBlocksSpec]
    cases hr : renderBlocksSpec result.content with
    | error e => simp [Except.map]
    | ok s => simp [Except.map]
  refine ⟨heq, ?_⟩
  intro e herr
  rw [heq] at herr
  exact renderBlocksSpec_error result.content e herr

/-- Witness for C6 at the spec's example
`{isError:false, content:[{text:"file1.txt"}]}`. -/
theorem synthesize_concatenates_in_order_witness :
    Synthesize ⟨false, [ContentBlock.textContent ("file1.txt")]⟩ =
        renderBlocksSpec [ContentBlock.textContent ("file1.txt")] ∧
      Synthesize ⟨false, [ContentBlock.textContent ("file1.txt")]⟩ =
        Except.ok ("file1.txt") := by
  refine ⟨(synthesize_concatenates_in_order ⟨false, [ContentBlock.textContent ("file1.txt")]⟩ rfl).1, ?_⟩
  rfl

/-! ## LLM client data model and the synchronous call -/

/-- Embedding of `FunctionCall`: a named function invocation with a JSON
string of arguments. -/
structure FunctionCall where
  name : String
  arguments : String

/-- Embedding of `ToolCall`. -/
structure ToolCall where
  id : String
  type : String
  function : FunctionCall

/-- Embedding of `Message`. -/
structure Message where
  role : String
  content : String
  toolCalls : List ToolCall

/-- Embedding of one element of `ChatCompletionResponse.Choices`. -/
structure Choice where
  message : Message
  finishReason : String
  index : Nat

/-- Embedding of `ChatCompletionResponse`. -/
structure ChatCompletionResponse where
  choices : List Choice

/-- Outcome of one HTTP round trip as seen by
`CallChatCompletionWithToolChoice` after `c.client.Do` succeeds: the status
code and the result of JSON-decoding the body into a
`ChatCompletionResponse`. -/
structure HTTPResponse where
  statusCode : Nat
  bodyDecode : Except String ChatCompletionResponse

/-- Embedding of `CallChatCompletionWithToolChoice` from the point where the
request has been built (marshalling the request structs of this module cannot
fail) and sent: `sendResult` models the outcome of `c.client.Do`. The
function mirrors the Go checks in order: transport error, non-OK status,
body decode error, and the empty-`Choices` check. -/
def CallChatCompletionWithToolChoice (sendResult : Except String HTTPResponse) :
    Except String ChatCompletionResponse :=
  match sendResult with
  | Except.error e => Except.error ("error sending request: " ++ e)
  | Except.ok resp =>
    if resp.statusCode ≠ 200 then
      Except.error ("non-OK status: " ++ toString resp.statusCode)
    else
      match resp.bodyDecode with
      | Except.error e => Except.error ("could not decode response body: " ++ e)
      | Except.ok llmResponse =>
        if llmResponse.choices.length = 0 then
          Except.error ("no choices in LLM response")
        else Except.ok llmResponse

/-- C8: `CallChatCompletionWithToolChoice` fails whenever the decoded
endpoint response contains zero choices, and every successful result has at
least one choice. -/
theorem callChatCompletion_choices_nonempty (sendResult : Except String HTTPResponse) :
    (∀ resp llmResponse, sendResult = Except.ok resp →
        resp.bodyDecode = Except.ok llmResponse → llmResponse.choices = [] →
        ∃ e, CallChatCompletionWithToolChoice sendResult = Except.error e) ∧
      ∀ llmResponse,
        CallChatCompletionWithToolChoice sendResult = Except.ok llmResponse →
        llmResponse.choices ≠ [] := by
  constructor
  · rintro resp llmResponse rfl hdec hempty
    rw [CallChatCompletionWithToolChoice]
    by_cases hst : resp.statusCode ≠ 200
    · exact ⟨_, by rw [if_pos hst]⟩
    · rw [if_neg hst, hdec]
      refine ⟨"no choices in LLM response", ?_⟩
      show (if llmResponse.choices.length = 0
          then Except.error ("no choices in LLM response")
          else Except.ok llmResponse) = _
      rw [if_pos (by simp [hempty])]
  · intro llmResponse hok
    cases sendResult with
    | error e => exact absurd hok (by simp [CallChatCompletionWithToolChoice])
    | ok resp =>
      rw [CallChatCompletionWithToolChoice] at hok
      split at hok
      · exact absurd hok (by simp)
      · split at hok
        · exact absurd hok (by simp)
        · split at hok
          · exact absurd hok (by simp)
          · rename_i hlen
            cases hok
            intro hcontra
            exact hlen (by simp [hcontra])

/-- Witness for C8 at a concrete 200 response decoding to zero choices. -/
theorem callChatCompletion_choices_nonempty_witness :
    ∃ e, CallChatCompletionWithToolChoice
        (Except.ok ⟨200, Except.ok ⟨[]⟩⟩) = Except.error e :=
  (callChatCompletion_choices_nonempty (Except.ok ⟨200, Except.ok ⟨[]⟩⟩)).1
    ⟨200, Except.ok ⟨[]⟩⟩ ⟨[]⟩ rfl rfl rfl

/-! ## Finalizer (`reconnector.go`) -/

/-- The fixed summarization user message appended by `Reconnect` to the
conversation history. -/
def summaryRequest : Message :=
  { role := "user",
    content := "Please provide a summary or a final answer based on the conversation history.",
    toolCalls := [] }

/-- Content of the first choice of a response, as read by
`llmResponse.Choices[0].Message.Content`. The empty-choices fallback is
unreachable for responses produced by `CallChatCompletionWithToolChoice`,
which rejects empty `Choices`. -/
def firstChoiceContent (r : ChatCompletionResponse) : String :=
  match r.choices with
  | [] => ""
  | c :: _ => c.message.content

/-- Embedding of `Reconnector.Reconnect`: append the fixed summarization
request to the history, make one LLM call with no tools and tool choice
`"none"` (`llm` models that call's outcome as a function of the message list
sent), wrap a call failure, and otherwise return the first choice's message
content. -/
def Reconnect (llm : List Message → Except String ChatCompletionResponse)
    (history : List Message) : Except String String :=
  match llm (history ++ [summaryRequest]) with
  | Except.error e => Except.error ("failed to get final response from LLM: " ++ e)
  | Except.ok llmResponse => Except.ok (firstChoiceContent llmResponse)

/-- C4 counterexample: on a transcript with no assistant message at all, with
the LLM replying successfully with an empty content string, `Reconnect`
returns the empty string with no error — so it neither fails with
`NoFinalAnswerError` on an assistant-free transcript (no such error exists in
the code) nor guarantees a non-empty answer on success. -/
theorem reconnect_empty_answer_cex :
    Reconnect
        (fun _ => Except.ok ⟨[⟨⟨"assistant", "", []⟩, "stop", 0⟩]⟩)
        [⟨"user", "hi", []⟩] = Except.ok "" ∧
      ∀ m ∈ [Message.mk "user" "hi" []], m.role ≠ "assistant" := by
  constructor
  · rfl
  · intro m hm
    rw [List.mem_singleton] at hm
    rw [hm]
    simp

/-- C4 as amended: `Reconnect` fails exactly when the single LLM call on the
extended transcript fails (wrapping that error), and on success returns the
first choice's message content, which may be empty; the transcript itself is
never inspected for assistant messages. -/
theorem reconnect_amended (llm : List Message → Except String ChatCompletionResponse)
    (history : List Message) :
    (∀ e, llm (history ++ [summaryRequest]) = Except.error e →
        Reconnect llm history =
          Except.error ("failed to get final response from LLM: " ++ e)) ∧
      ∀ llmResponse, llm (history ++ [summaryRequest]) = Except.ok llmResponse →
        Reconnect llm history = Except.ok (firstChoiceContent llmResponse) := by
  constructor
  · intro e he
    rw [Reconnect, he]
  · intro llmResponse hok
    rw [Reconnect, hok]

/-- Witness for the amended C4 at a concrete transcript and LLM outcome. -/
theorem reconnect_amended_witness :
    Reconnect (fun _ => Except.ok ⟨[⟨⟨"assistant", "42", []⟩, "stop", 0⟩]⟩)
        [⟨"user", "q", []⟩] =
      Except.ok (firstChoiceContent ⟨[⟨⟨"assistant", "42", []⟩, "stop", 0⟩]⟩) :=
  (reconnect_amended (fun _ => Except.ok ⟨[⟨⟨"assistant", "42", []⟩, "stop", 0⟩]⟩)
      [⟨"user", "q", []⟩]).2
    ⟨[⟨⟨"assistant", "42", []⟩, "stop", 0⟩]⟩ rfl

/-! ## Orchestrator (`orchestrator.go`) -/

/-- Embedding of `ToolFunction`: the LLM-side tool description.
`parameters` holds the raw JSON of the input schema
(`json.RawMessage(paramsBytes)`). -/
structure ToolFunction where
  name : String
  description : String
  parameters : String

/-- Embedding of `Tool`. -/
structure Tool where
  type : String
  function : ToolFunction

/-- Embedding of `mcpcore.Tool` as returned by `MCPClient.GetTools`.
`inputSchema` holds the JSON serialization of the schema: tool definitions
reach `GetTools` through the MCP client's JSON decoder, so re-serializing
them with `json.Marshal` (whose error branch in `ExecuteTask` would skip the
tool) cannot fail, and the embedding records the serialized form directly. -/
structure MCPTool where
  name : String
  description : String
  inputSchema : String

/-- Embedding of `OrchestrationUpdate` (api.go). `errMsg` is the message of
the `Error` field, `none` when the Go error is nil. -/
structure OrchestrationUpdate where
  type : String
  content : String
  errMsg : Option String

/-- The discovery loop of `ExecuteTask`: the registered clients are given as
an association list in the orchestrator map's iteration order, each paired
with the outcome of its `GetTools` call. A failed discovery is logged and
skipped (`continue`); each discovered tool is added under the qualified name
`alias ++ "." ++ name` (`fmt.Sprintf`). -/
def aggregateTools (clients : List (String × Except String (List MCPTool))) :
    List Tool :=
  clients.flatMap (fun p =>
    match p.2 with
    | Except.error _ => []
    | Except.ok mcpTools =>
      mcpTools.map (fun t =>
        { type := "function",
          function :=
            { name := p.1 ++ "." ++ t.name,
              description := t.description,
              parameters := t.inputSchema } }))

/-- Embedding of `ExecuteTask`. `agentResult` models the outcome of
`agent.Execute` (defined outside the orchestrator sources) and is consulted
only when the agent is actually created and run. The first component lists
the updates sent on `updateChan`, in order, before the deferred
`close(updateChan)` runs at return (so the list is the complete content of
the channel); the second component records whether the agent (and hence the
model) was invoked. -/
def ExecuteTask (clients : List (String × Except String (List MCPTool)))
    (agentResult : Except String String) : List OrchestrationUpdate × Bool :=
  let availableTools := aggregateTools clients
  if availableTools.length = 0 then
    ([⟨"error", "No tools available from connected agents.",
        some ("no tools available")⟩], false)
  else
    match agentResult with
    | Except.error e =>
      ([⟨"error", "Agent execution failed: " ++ e, some e⟩], true)
    | Except.ok finalResult => ([⟨"result", finalResult, none⟩], true)

/-- C1: every execution of `ExecuteTask` sends exactly one update on the
update channel before the channel is closed, and that update is terminal (of
type `result` or `error`) — never both, never more than one. -/
theorem executeTask_exactly_one_terminal
    (clients : List (String × Except String (List MCPTool)))
    (agentResult : Except String String) :
    ∃ u, (ExecuteTask clients agentResult).1 = [u] ∧
      (u.type = "result" ∨ u.type = "error") := by
  rw [ExecuteTask.eq_def]
  by_cases hlen : (aggregateTools clients).length = 0
  · rw [if_pos hlen]
    exact ⟨_, rfl, Or.inr rfl⟩
  · rw [if_neg hlen]
    cases agentResult with
    | error e => exact ⟨_, rfl, Or.inr rfl⟩
    | ok finalResult => exact ⟨_, rfl, Or.inl rfl⟩

/-- C3: when the aggregated catalog is empty, `ExecuteTask` sends exactly the
single `error` update produced by the no-tools check and never invokes the
agent (hence never the model); and the catalog is empty in particular
whenever every provider's discovery call fails. -/
theorem executeTask_empty_catalog_no_agent
    (clients : List (String × Except String (List MCPTool)))
    (agentResult : Except String String) :
    (aggregateTools clients = [] →
        ExecuteTask clients agentResult =
          ([⟨"error", "No tools available from connected agents.",
              some ("no tools available")⟩], false)) ∧
      ((∀ p ∈ clients, ∃ e, p.2 = Except.error e) → aggregateTools clients = []) := by
  constructor
  · intro hempty
    rw [ExecuteTask.eq_def, if_pos (by rw [hempty]; rfl)]
  · intro hall
    rw [aggregateTools, List.flatMap_eq_nil_iff]
    intro p hp
    obtain ⟨e, he⟩ := hall p hp
    rw [he]

/-- Witness for C3: one registered provider whose discovery fails. -/
theorem executeTask_empty_catalog_no_agent_witness :
    ExecuteTask [("fs", Except.error ("connection refused"))] (Except.ok ("x")) =
      ([⟨"error", "No tools available from connected agents.",
          some ("no tools available")⟩], false) :=
  (executeTask_empty_catalog_no_agent
      [("fs", Except.error ("connection refused"))] (Except.ok ("x"))).1
    ((executeTask_empty_catalog_no_agent
        [("fs", Except.error ("connection refused"))] (Except.ok ("x"))).2
      (by intro p hp; rw [List.mem_singleton] at hp; exact ⟨_, by rw [hp]⟩))

/-- C7: a tool entry is in the aggregated catalog exactly when it comes from
a provider whose discovery succeeded, carrying the qualified name
`alias ++ "." ++ rawName`; a provider whose discovery failed contributes
nothing and does not affect the others. -/
theorem aggregateTools_mem
    (clients : List (String × Except String (List MCPTool))) (entry : Tool) :
    entry ∈ aggregateTools clients ↔
      ∃ a mcpTools t, (a, Except.ok mcpTools) ∈ clients ∧ t ∈ mcpTools ∧
        entry = ⟨"function", ⟨a ++ "." ++ t.name, t.description, t.inputSchema⟩⟩ := by
  rw [aggregateTools, List.mem_flatMap]
  constructor
  · rintro ⟨⟨a, r⟩, hp, hin⟩
    cases r with
    | error e => exact absurd hin (by simp)
    | ok mcpTools =>
      rw [List.mem_map] at hin
      obtain ⟨t, ht, hentry⟩ := hin
      exact ⟨a, mcpTools, t, hp, ht, hentry.symm⟩
  · rintro ⟨a, mcpTools, t, hp, ht, rfl⟩
    exact ⟨(a, Except.ok mcpTools), hp, by
      rw [List.mem_map]
      exact ⟨t, ht, rfl⟩⟩

/-! ## Provider registration (`ManageMCP`) -/

/-- Go map assignment on the registration table, modelled as an association
list keyed by the provider name: replace the entry if the key is present,
otherwise append a new entry. -/
def mapStore {C : Type} : List (String × C) → String → C → List (String × C)
  | [], a, c => [(a, c)]
  | (k, v) :: rest, a, c =>
    if k = a then (a, c) :: rest else (k, v) :: mapStore rest a c

/-- Go map read on the registration table. -/
def mapLookup {C : Type} : List (String × C) → String → Option C
  | [], _ => none
  | (k, v) :: rest, a => if k = a then some v else mapLookup rest a

/-- Embedding of `Orchestrator.ManageMCP`: `newClient` models the outcome of
`NewMCPClient` (spawning and initializing the agent process); on success the
client is stored in `o.mcpClients` under the configured name and the updated
table is the new orchestrator state. -/
def ManageMCP {C : Type} (table : List (String × C)) (al : String)
    (newClient : Except String C) : Except String (List (String × C)) :=
  match newClient with
  | Except.error e =>
    Except.error ("failed to create MCP client for " ++ al ++ ": " ++ e)
  | Except.ok client => Except.ok (mapStore table al client)

/-- C9 counterexample: registering the provider name `fs` a second time (with
client creation succeeding) does not fail with any duplicate-name error — it
succeeds and silently replaces the existing table entry `("fs", 1)` by
`("fs", 2)`. -/
theorem manageMCP_duplicate_replaces_cex :
    ManageMCP [("fs", (1 : Nat))] "fs" (Except.ok 2) = Except.ok [("fs", 2)] ∧
      mapLookup [("fs", (1 : Nat))] "fs" = some 1 := by
  constructor
  · rfl
  · rfl

/-- C9 as amended: `ManageMCP` performs no duplicate check on the provider
name. When client creation succeeds it always succeeds and stores the new
client under that name — replacing any existing entry — while other entries are
unchanged; it fails exactly when creating the MCP client fails. -/
theorem manageMCP_no_duplicate_check {C : Type} (table : List (String × C))
    (al : String) (client : C) :
    ManageMCP table al (Except.ok client) =
        Except.ok (mapStore table al client) ∧
      mapLookup (mapStore table al client) al = some client ∧
      (∀ a, a ≠ al →
        mapLookup (mapStore table al client) a = mapLookup table a) ∧
      ∀ e, ManageMCP table al (Except.error e) =
        Except.error ("failed to create MCP client for " ++ al ++ ": " ++ e) := by
  refine ⟨rfl, ?_, ?_, fun e => rfl⟩
  · induction table with
    | nil => simp [mapStore, mapLookup]
    | cons p rest ih =>
      obtain ⟨k, v⟩ := p
      by_cases hk : k = al
      · simp [mapStore, mapLookup, hk]
      · rw [mapStore, if_neg hk, mapLookup, if_neg hk]
        exact ih
  · intro a ha
    induction table with
    | nil => simp [mapStore, mapLookup, Ne.symm ha]
    | cons p rest ih =>
      obtain ⟨k, v⟩ := p
      by_cases hk : k = al
      · rw [mapStore, if_pos hk, mapLookup, mapLookup, if_neg (fun h => ha h.symm)]
        rw [hk, if_neg (fun h => ha h.symm)]
      · rw [mapStore, if_neg hk, mapLookup, mapLookup]
        by_cases hka : k = a
        · rw [if_pos hka, if_pos hka]
        · rw [if_neg hka, if_neg hka]
          exact ih

/-- Witness for the amended C9 at a concrete table, name and client. -/
theorem manageMCP_no_duplicate_check_witness :
    mapLookup (mapStore [("fs", (1 : Nat))] "db" 7) "fs" =
      mapLookup [("fs", (1 : Nat))] "fs" :=
  (manageMCP_no_duplicate_check [("fs", (1 : Nat))] "db" 7).2.2.1 "fs"
    (by decide)

end GoAs
